import Mathlib

/-!
Shallow embedding of `redash/models/changes.py` (change auditing for
persisted domain objects): the `Change` ledger row, the helpers
`get_object_changes` and `get_relation_attr`, and the `track_changes`
decorator with its `ChangeTracking.__setattr__` / `record_changes`.

Python dicts keyed by strings are embedded as association lists in
insertion order (`alook` is `dict.get`, `dinsert` is `d[k] = v`: it
replaces the value in place for an existing key and appends otherwise,
matching CPython's insertion-order semantics).  ORM instances are
embedded as a finite attribute map plus an "attached to a session" flag
(`object_session(self) is not None`).  The class-level metadata that
SQLAlchemy's `inspect` provides (column attribute key -> column name,
relationship key -> target class) is carried in `ClassMeta`.

A crucial point of the source, reflected here: `__changes__ = {}` on the
decorator-generated class is a single class attribute.  `__setattr__`
only ever performs *item* assignment (`self.__changes__[key] = change`),
which mutates that one class-level dict; no instance attribute named
`__changes__` is ever created.  Hence every instance of one wrapped
class shares one buffer, and the embedding threads that one class-level
`Buffer` value explicitly through `setattr_` / `record_changes`.
-/

/-- Runtime values held by entity attributes: Python `None`, ints,
strings, and references to persisted entities (a SQLAlchemy instance,
identified as the generic-foreign-key machinery does by its class's
`__tablename__` together with its `id`). -/
inductive Val where
  | none
  | int (n : Int)
  | str (s : String)
  | ref (tablename : String) (oid : Val)
  deriving DecidableEq

/-- Dictionary lookup, `d.get(k)`: the value at the first (unique)
occurrence of the key, or `none`. -/
def alook {α : Type} : List (String × α) → String → Option α
  | [], _ => Option.none
  | (k', v) :: rest, k => if k' = k then some v else alook rest k

/-- Dictionary assignment `d[k] = v`: replace the value at an existing
key in place, else append the new pair at the end. -/
def dinsert {α : Type} : List (String × α) → String → α → List (String × α)
  | [], k, v => [(k, v)]
  | (k', v') :: rest, k, v =>
      if k' = k then (k, v) :: rest else (k', v') :: dinsert rest k v

/-- One buffered per-attribute record `{"previous": ..., "current": ...}`. -/
structure ChangeRec where
  previous : Val
  current : Val
  deriving DecidableEq

/-- The pending-diff buffer `__changes__` (and likewise the extracted
diff produced by `get_object_changes`): a dict from attribute / column
name to a `{previous, current}` record. -/
abbrev Buffer := List (String × ChangeRec)

/-- Extracted change set, same shape as the buffer. -/
abbrev Diff := List (String × ChangeRec)

/-- `Change.Type`: the str enum with values created / modified / deleted. -/
inductive CType where
  | created
  | modified
  | deleted
  deriving DecidableEq

/-- Class-level metadata of a mapped entity type, as read off by
`sqlalchemy.inspect`: the Python class identity (`name`), its
`__tablename__`, the mapper's `column_attrs` (attribute key to column
name, from `changes.py` lines 63-66) and its `relationships`
(relationship key to target class, iterated in declaration order as in
`get_relation_attr`). -/
structure ClassMeta where
  name : String
  tablename : String
  columnAttrs : List (String × String)
  relationships : List (String × String)
  deriving DecidableEq

/-- A live ORM instance: its attribute dictionary and whether
`object_session(self)` currently returns a session.  Mapped attributes
always exist on an instance (column descriptors default to `None`), so
attribute reads below default missing keys to `Val.none`. -/
structure Inst where
  attrs : List (String × Val)
  attached : Bool
  deriving DecidableEq

/-- The acting user passed as `changed_by`: its `id` (what the `user_id`
foreign key stores) and its own `to_dict()` serialization, which this
module treats as opaque. -/
structure Actor where
  id : Val
  serialized : List (String × Val)
  deriving DecidableEq

/-- Attribute read `getattr(self, k)` on a mapped instance. -/
def getattr_ (s : Inst) (k : String) : Val :=
  (alook s.attrs k).getD Val.none

/-- The four identifier attributes that `track_changes` always removes
from the caller-supplied tracked set (`changes.py` line 87). -/
def excludedAttrs : List String := ["id", "created_at", "updated_at", "version"]

/-- Line 87: `attributes = set(attributes) - {"id", "created_at",
"updated_at", "version"}`.  Only membership in the resulting set is ever
used, so a duplicate-preserving filtered list is an adequate embedding. -/
def trackedSet (attributes : List String) : List String :=
  attributes.filter (fun a => !(excludedAttrs.contains a))

/-- `ChangeTracking.__setattr__` (lines 93-102): when `key` is tracked,
fetch the buffered record for `key` (defaulting `previous` to the value
held *before* this write and `current` to `None`), overwrite its
`current` with the new value, store it back in the shared class-level
buffer; then unconditionally perform the underlying attribute write. -/
def setattr_ (tracked : List String) (buf : Buffer) (s : Inst) (key : String) (v : Val) :
    Buffer × Inst :=
  let buf' :=
    if tracked.contains key then
      let prev := ((alook buf key).getD ⟨getattr_ s key, Val.none⟩).previous
      dinsert buf key ⟨prev, v⟩
    else buf
  (buf', ⟨dinsert s.attrs key v, s.attached⟩)

/-- `get_object_changes(obj, reset=True)` (lines 58-76): if the buffer
is falsy (empty) return `{}` untouched; otherwise keep every buffered
record whose `current` differs from `previous`, keyed by the column name
the mapper gives the attribute (falling back to the attribute key), and
clear the buffer when `reset` is set.  Returns the extracted diff
together with the buffer's state afterwards. -/
def get_object_changes (cls : ClassMeta) (buf : Buffer) (reset : Bool) : Diff × Buffer :=
  if buf.isEmpty then ([], buf)
  else
    let result := buf.foldl
      (fun acc p =>
        if p.2.current ≠ p.2.previous then
          dinsert acc ((alook cls.columnAttrs p.1).getD p.1) p.2
        else acc)
      []
    (result, if reset then [] else buf)

/-- `get_relation_attr(source, target)` (lines 79-83): the key of the
first relationship on `source` whose target class is `target`, else
`None`. -/
def get_relation_attr (source : ClassMeta) (target : String) : Option String :=
  match source.relationships.find? (fun p => p.2 == target) with
  | Option.none => Option.none
  | some p => some p.1

/-- The nested per-child record the parent branch builds (lines
115-125): `{"type": change_type, "changes": <diff>, "id": {"previous":
self.id, "current": self.id}}`. -/
structure NestedRec where
  ntype : CType
  nchanges : Diff
  idPrevious : Val
  idCurrent : Val
  deriving DecidableEq

/-- The `change` payload stored on a ledger row: either the flat
`{"type": t, "changes": d}` dict, or the parent-redirected wrapper
`{"type": modified, "changes": {parent_attr: [nested]}}` whose single
key is the parent-side relationship name — which is Python `None` when
`get_relation_attr(parent, cls)` found no relationship, hence an
`Option String`. -/
inductive Payload where
  | flat (ptype : CType) (pchanges : Diff)
  | nested (ptype : CType) (parentAttr : Option String) (inner : NestedRec)
  deriving DecidableEq

/-- One row of the `changes` table.  The columns declared in `Change`
itself are `id`, `object_version`, `user_id`/`user`, `change`,
`created_at`; `object_type` and `object_id` come from `GFKBase`.
Modelled from the spec: `GFKBase` (redash/models/base.py) is not under
src — per the spec's ChangeEntry field list it contributes the
polymorphic subject reference (`subjectType`, `subjectId`) and the entry
carries a `changeType` attribute (read by `to_dict`); `record_changes`
never passes `id`, `created_at` or `change_type` to the constructor, so
rows it stages hold `Val.none` there until the database assigns them. -/
structure ChangeRow where
  id : Val
  objectType : String
  objectId : Val
  objectVersion : Val
  user : Actor
  change : Payload
  createdAt : Val
  changeType : Val
  deriving DecidableEq

/-- Construction `Change(object=obj, object_version=getattr(self,
"version", None), user=changed_by, change=payload)` for a subject given
by tablename and id.  Modelled from the spec: the `GFKBase.object`
setter (not under src) stores the subject as
`value.__class__.__tablename__` plus `value.id`. -/
def mkChange (objType : String) (objId : Val) (s : Inst) (u : Actor) (p : Payload) : ChangeRow :=
  { id := Val.none
    objectType := objType
    objectId := objId
    objectVersion := getattr_ s "version"
    user := u
    change := p
    createdAt := Val.none
    changeType := Val.none }

/-- `ChangeTracking.record_changes(self, changed_by, change_type)`
(lines 104-143).  The result is `Except`: `Except.error` marks a raised
Python exception.  On success it returns the row handed to
`session.add` (`Option.none` when nothing was staged) together with the
class-level buffer's state afterwards.

Faithful points: the session check precedes extraction; extraction runs
with `reset=True`; an empty diff aborts only for `Modified`; the parent
branch wraps the nested record under the (possibly `None`) parent-side
relationship key with outer type hard-coded `Modified`, then evaluates
`getattr(self, get_relation_attr(cls, parent), self)` — when
`get_relation_attr` returned `None`, CPython's `getattr` raises
`TypeError` for the non-string name *before* consulting the default, and
when the reverse relationship holds a non-entity value the `object`
setter raises `AttributeError`. -/
def record_changes (cls : ClassMeta) (parent : Option ClassMeta) (s : Inst)
    (buf : Buffer) (changed_by : Actor) (change_type : CType) :
    Except String (Option ChangeRow × Buffer) :=
  if s.attached = false then Except.ok (Option.none, buf)
  else
    let r := get_object_changes cls buf true
    if r.1.isEmpty && change_type == CType.modified then Except.ok (Option.none, r.2)
    else
      match parent with
      | Option.none =>
          Except.ok (some (mkChange cls.tablename (getattr_ s "id") s changed_by
            (Payload.flat change_type r.1)), r.2)
      | some p =>
          let pa := get_relation_attr p cls.name
          let payload := Payload.nested CType.modified pa
            ⟨change_type, r.1, getattr_ s "id", getattr_ s "id"⟩
          match get_relation_attr cls p.name with
          | Option.none => Except.error "TypeError: attribute name must be string"
          | some ca =>
              match alook s.attrs ca with
              | Option.none =>
                  Except.ok (some (mkChange cls.tablename (getattr_ s "id") s changed_by
                    payload), r.2)
              | some (Val.ref t oid) =>
                  Except.ok (some (mkChange t oid s changed_by payload), r.2)
              | some _ =>
                  Except.error "AttributeError: object lacks tablename or id"

/-- Values of the dict `Change.to_dict` returns: plain column values,
the structured `change` payload, or the embedded full user dict. -/
inductive DField where
  | val (v : Val)
  | payload (p : Payload)
  | udict (d : List (String × Val))
  deriving DecidableEq

/-- `Change.to_dict(self, full=True)` (lines 29-45): the seven fixed
entries, then `d["user"] = self.user.to_dict()` when `full` else
`d["user_id"] = self.user_id`. -/
def to_dict (c : ChangeRow) (full : Bool) : List (String × DField) :=
  let d : List (String × DField) :=
    [("id", DField.val c.id),
     ("object_id", DField.val c.objectId),
     ("object_type", DField.val (Val.str c.objectType)),
     ("change_type", DField.val c.changeType),
     ("object_version", DField.val c.objectVersion),
     ("change", DField.payload c.change),
     ("created_at", DField.val c.createdAt)]
  if full then dinsert d "user" (DField.udict c.user.serialized)
  else dinsert d "user_id" (DField.val c.user.id)

/-- Sort key giving PostgreSQL's `ORDER BY object_version DESC`
comparison on the column's values: NULL sorts first (greatest) under
DESC, integers compare numerically; other `Val` shapes cannot inhabit
an integer column and are ranked below as mutually tied. -/
def verKey (v : Val) : Nat × Int :=
  match v with
  | Val.none => (3, 0)
  | Val.int n => (2, n)
  | Val.str _ => (1, 0)
  | Val.ref _ _ => (0, 0)

/-- `a` precedes-or-ties `b` in the `object_version DESC` ordering
(i.e. `a`'s version is at least `b`'s). -/
def verGE (a b : Val) : Bool :=
  decide ((verKey b).1 < (verKey a).1) ||
    (decide ((verKey b).1 = (verKey a).1) && decide ((verKey b).2 ≤ (verKey a).2))

/-- The filter of `Change.last_change` (lines 50-52): `cls.object_id ==
obj.id` and `cls.object_type == obj.__class__.__tablename__`. -/
def matchesSubject (row : ChangeRow) (objType : String) (objId : Val) : Bool :=
  row.objectId == objId && row.objectType == objType

/-- One step of selecting the first row of the `object_version DESC`
ordering: keep the current best unless the next row ranks strictly
higher. -/
def pickLatest (best : Option ChangeRow) (row : ChangeRow) : Option ChangeRow :=
  match best with
  | Option.none => some row
  | some b => if verGE b.objectVersion row.objectVersion then some b else some row

/-- `Change.last_change(cls, obj)` (lines 47-55).  Modelled from the
spec: the ORM query layer is an external collaborator, so the `changes`
table is embedded as the list of its rows and
`query.filter(...).order_by(object_version.desc()).first()` as selecting
a matching row maximal for `verGE` (the first such in insertion order —
ties are unspecified in the source, which imposes no secondary order). -/
def last_change (ledger : List ChangeRow) (objCls : ClassMeta) (objId : Val) :
    Option ChangeRow :=
  (ledger.filter (fun row => matchesSubject row objCls.tablename objId)).foldl
    pickLatest Option.none

/-- A sequence of writes to one tracked attribute, threading the shared
class-level buffer and the instance. -/
def writeSeq (tracked : List String) (key : String) (vals : List Val)
    (st : Buffer × Inst) : Buffer × Inst :=
  vals.foldl (fun s v => setattr_ tracked s.1 s.2 key v) st

/-- A sequence of writes to arbitrary attributes of one instance. -/
def applyWrites (tracked : List String) (ws : List (String × Val))
    (st : Buffer × Inst) : Buffer × Inst :=
  ws.foldl (fun s kv => setattr_ tracked s.1 s.2 kv.1 kv.2) st

/-!
Concrete data used by witnesses and counterexamples: the spec's
`Order`/`LineItem` parent/child example, a standalone `Query`-like
tracked class, and a class whose attribute `pk` is mapped to storage
column name `id`.
-/

/-- Parent class of the spec example: `Order` with relationship `items`
targeting `LineItem`. -/
def orderCls : ClassMeta := ⟨"Order", "orders", [], [("items", "LineItem")]⟩

/-- Child class of the spec example: `LineItem` with tracked column
`qty` and relationship `order` back to `Order`. -/
def lineItemCls : ClassMeta := ⟨"LineItem", "line_items", [("qty", "qty")], [("order", "Order")]⟩

/-- A `LineItem` variant with no relationship back to `Order`. -/
def lineItemNoRev : ClassMeta := ⟨"LineItem", "line_items", [("qty", "qty")], []⟩

/-- The child instance of the spec example: id 7, `qty` already written
to 3, its `order` relationship holding the `Order` instance with id 2,
attached to a session.  It has no `version` attribute. -/
def lineItem7 : Inst :=
  ⟨[("id", Val.int 7), ("qty", Val.int 3), ("order", Val.ref "orders" (Val.int 2))], true⟩

/-- Pending buffer after `qty` was written from 1 to 3. -/
def qtyBuf : Buffer := [("qty", ⟨Val.int 1, Val.int 3⟩)]

/-- Pending buffer whose sole record was written back to its original
value. -/
def eqBuf : Buffer := [("qty", ⟨Val.int 1, Val.int 1⟩)]

/-- The acting user. -/
def alice : Actor := ⟨Val.int 1, [("id", Val.int 1), ("name", Val.str "alice")]⟩

/-- A standalone tracked class with no parent, no column renames and no
relationships. -/
def queryCls : ClassMeta := ⟨"Query", "queries", [], []⟩

/-- A detached instance (not in any session), id 7. -/
def instA : Inst := ⟨[("id", Val.int 7), ("name", Val.str "a")], false⟩

/-- An attached instance of the same wrapped class, id 9. -/
def instB : Inst := ⟨[("id", Val.int 9), ("name", Val.str "b")], true⟩

/-- A class whose attribute key `pk` is mapped to the storage column
named `id`, as `sqlalchemy.Column("id", ...)` under attribute `pk`
produces. -/
def pkCls : ClassMeta := ⟨"Widget", "widgets", [("pk", "id")], []⟩

/-- Ledger row for subject queries/9 at version 1. -/
def rowV1 : ChangeRow :=
  ⟨Val.int 1, "queries", Val.int 9, Val.int 1, alice, Payload.flat CType.created [],
   Val.none, Val.none⟩

/-- Ledger row for subject queries/9 at version 5. -/
def rowV5 : ChangeRow :=
  ⟨Val.int 2, "queries", Val.int 9, Val.int 5, alice,
   Payload.flat CType.modified [("name", ⟨Val.str "a", Val.str "b"⟩)], Val.none, Val.none⟩

/-- Ledger row for a different subject (dashboards/9). -/
def rowOther : ChangeRow :=
  ⟨Val.int 3, "dashboards", Val.int 9, Val.int 9, alice, Payload.flat CType.created [],
   Val.none, Val.none⟩

/-- A small ledger holding two entries for queries/9 and one for an
unrelated subject. -/
def demoLedger : List ChangeRow := [rowV1, rowOther, rowV5]

/-- A realistic wrapped class: its (untracked) `id` attribute is mapped
to the excluded column name `id`, while the tracked `name` attribute
keeps column name `name`. -/
def fullCls : ClassMeta :=
  ⟨"Dashboard", "dashboards", [("id", "id"), ("name", "name")], []⟩

/-! Helper lemmas about the dictionary embedding. -/

theorem alook_dinsert_self {α : Type} (m : List (String × α)) (k : String) (v : α) :
    alook (dinsert m k v) k = some v := by
  induction m with
  | nil => simp [dinsert, alook]
  | cons p rest ih =>
      obtain ⟨k', v'⟩ := p
      by_cases h : k' = k
      · simp [dinsert, h, alook]
      · simp [dinsert, h, alook, ih]

theorem mem_dinsert {α : Type} (m : List (String × α)) (k : String) (v : α) :
    ∀ q ∈ dinsert m k v, q ∈ m ∨ q = (k, v) := by
  induction m with
  | nil => simp [dinsert]
  | cons p rest ih =>
      obtain ⟨k', v'⟩ := p
      intro q hq
      by_cases h : k' = k
      · simp [dinsert, h] at hq
        rcases hq with h1 | h1
        · exact Or.inr (by simp [h1])
        · exact Or.inl (by simp [h1])
      · simp [dinsert, h] at hq
        rcases hq with h1 | h1
        · exact Or.inl (by simp [h1])
        · rcases ih q h1 with h2 | h2
          · exact Or.inl (by simp [h2])
          · exact Or.inr h2

theorem alook_none_of_keys {α : Type} (m : List (String × α)) (k : String)
    (h : ∀ q ∈ m, q.1 ≠ k) : alook m k = Option.none := by
  induction m with
  | nil => simp [alook]
  | cons p rest ih =>
      obtain ⟨k', v'⟩ := p
      have hk : k' ≠ k := h (k', v') (by simp)
      simp [alook, hk]
      exact ih (fun q hq => h q (by simp [hq]))

theorem alook_mem {α : Type} (m : List (String × α)) (k : String) (v : α)
    (h : alook m k = some v) : (k, v) ∈ m := by
  induction m with
  | nil => simp [alook] at h
  | cons p rest ih =>
      obtain ⟨k', v'⟩ := p
      by_cases hk : k' = k
      · simp [alook, hk] at h
        simp [hk, h]
      · simp [alook, hk] at h
        exact List.mem_cons_of_mem _ (ih h)

theorem contains_filter_false (l : List String) (p : String → Bool) (e : String)
    (h : p e = false) : (l.filter p).contains e = false := by
  have hnm : e ∉ l.filter p := by
    intro hm
    have hp := (List.mem_filter.mp hm).2
    rw [h] at hp
    exact Bool.false_ne_true hp
  simpa using hnm

/-! Invariants of the extraction fold in `get_object_changes`. -/

theorem goc_fold_inv (cls : ClassMeta) (Q : String × ChangeRec → Prop) :
    ∀ (l : Buffer) (acc : Diff),
      (∀ q ∈ acc, Q q) →
      (∀ p ∈ l, p.2.current ≠ p.2.previous →
        Q ((alook cls.columnAttrs p.1).getD p.1, p.2)) →
      ∀ q ∈ l.foldl
          (fun acc p =>
            if p.2.current ≠ p.2.previous then
              dinsert acc ((alook cls.columnAttrs p.1).getD p.1) p.2
            else acc)
          acc, Q q := by
  intro l
  induction l with
  | nil => intro acc hacc _ q hq; exact hacc q hq
  | cons p rest ih =>
      intro acc hacc hl q hq
      rw [List.foldl_cons] at hq
      by_cases hc : p.2.current = p.2.previous
      · simp only [hc, ne_eq, not_true_eq_false, if_false] at hq
        exact ih acc hacc (fun r hr => hl r (List.mem_cons_of_mem _ hr)) q hq
      · simp only [ne_eq, hc, not_false_eq_true, if_true] at hq
        refine ih _ ?_ (fun r hr => hl r (List.mem_cons_of_mem _ hr)) q hq
        intro r hr
        rcases mem_dinsert acc _ _ r hr with h1 | h1
        · exact hacc r h1
        · rw [h1]
          exact hl p (List.mem_cons_self _ _) hc

theorem goc_fold_const (cls : ClassMeta) :
    ∀ (l : Buffer) (acc : Diff),
      (∀ p ∈ l, p.2.current = p.2.previous) →
      l.foldl
        (fun acc p =>
          if p.2.current ≠ p.2.previous then
            dinsert acc ((alook cls.columnAttrs p.1).getD p.1) p.2
          else acc)
        acc = acc := by
  intro l
  induction l with
  | nil => intro acc _; rfl
  | cons p rest ih =>
      intro acc hl
      rw [List.foldl_cons]
      have hc := hl p (List.mem_cons_self _ _)
      simp only [hc, ne_eq, not_true_eq_false, if_false]
      exact ih acc (fun r hr => hl r (List.mem_cons_of_mem _ hr))

theorem goc_result_ne (cls : ClassMeta) (buf : Buffer) (reset : Bool) :
    ∀ q ∈ (get_object_changes cls buf reset).1, q.2.current ≠ q.2.previous := by
  unfold get_object_changes
  by_cases hb : buf.isEmpty
  · simp [hb]
  · simp only [hb, if_false]
    exact goc_fold_inv cls (fun q => q.2.current ≠ q.2.previous) buf []
      (by intro q hq; simp at hq) (fun p _ hp => hp)

theorem goc_all_eq (cls : ClassMeta) (buf : Buffer) (reset : Bool)
    (h : ∀ p ∈ buf, p.2.current = p.2.previous) :
    (get_object_changes cls buf reset).1 = [] := by
  unfold get_object_changes
  by_cases hb : buf.isEmpty
  · simp [hb]
  · simp only [hb, if_false]
    exact goc_fold_const cls buf [] h

theorem goc_reset (cls : ClassMeta) (buf : Buffer) :
    (get_object_changes cls buf true).2 = [] := by
  unfold get_object_changes
  by_cases hb : buf.isEmpty
  · simp [hb, List.isEmpty_iff.mp hb]
  · simp [hb]

/-! The `object_version DESC` ordering is a total preorder. -/

theorem verGE_refl (a : Val) : verGE a a = true := by
  simp [verGE]

theorem verGE_total (a b : Val) (h : ¬ verGE a b = true) : verGE b a = true := by
  simp [verGE] at h ⊢
  omega

theorem verGE_trans (a b c : Val) (hab : verGE a b = true) (hbc : verGE b c = true) :
    verGE a c = true := by
  simp [verGE] at hab hbc ⊢
  omega

/-! Behaviour of `__setattr__` over sequences of writes. -/

theorem setattr_applies_write (tracked : List String) (b : Buffer) (i : Inst)
    (k : String) (v : Val) : getattr_ (setattr_ tracked b i k v).2 k = v := by
  simp [setattr_, getattr_, alook_dinsert_self]

theorem writeSeq_keeps_previous (tracked : List String) (key : String)
    (h : tracked.contains key = true) :
    ∀ (vs : List Val) (buf : Buffer) (s : Inst) (p c : Val),
      alook buf key = some ⟨p, c⟩ →
      alook (writeSeq tracked key vs (buf, s)).1 key = some ⟨p, vs.getLastD c⟩ ∧
      getattr_ (writeSeq tracked key vs (buf, s)).2 key = vs.getLastD (getattr_ s key) := by
  intro vs
  induction vs with
  | nil =>
      intro buf s p c hb
      exact ⟨by simpa [writeSeq] using hb, by simp [writeSeq]⟩
  | cons v rest ih =>
      intro buf s p c hb
      have hmem : key ∈ tracked := by simpa using h
      have hstep : writeSeq tracked key (v :: rest) (buf, s)
          = writeSeq tracked key rest (setattr_ tracked buf s key v) := rfl
      have hset : setattr_ tracked buf s key v
          = (dinsert buf key ⟨p, v⟩, ⟨dinsert s.attrs key v, s.attached⟩) := by
        simp [setattr_, hmem, hb]
      have hlook : alook (dinsert buf key ⟨p, v⟩) key = some ⟨p, v⟩ :=
        alook_dinsert_self buf key ⟨p, v⟩
      have hattr : getattr_ (⟨dinsert s.attrs key v, s.attached⟩ : Inst) key = v := by
        simp [getattr_, alook_dinsert_self]
      have hrec := ih (dinsert buf key ⟨p, v⟩) ⟨dinsert s.attrs key v, s.attached⟩ p v hlook
      rw [hstep, hset]
      constructor
      · rw [List.getLastD_cons]
        exact hrec.1
      · rw [List.getLastD_cons]
        have h2 := hrec.2
        rw [hattr] at h2
        exact h2

/-! Selecting the first row of the `object_version DESC` ordering. -/

theorem pickLatest_fold_some :
    ∀ (t : List ChangeRow) (b : ChangeRow),
      ∃ e, t.foldl pickLatest (some b) = some e ∧ (e = b ∨ e ∈ t) ∧
        verGE e.objectVersion b.objectVersion = true ∧
        ∀ r ∈ t, verGE e.objectVersion r.objectVersion = true := by
  intro t
  induction t with
  | nil =>
      intro b
      exact ⟨b, rfl, Or.inl rfl, verGE_refl _, by intro r hr; simp at hr⟩
  | cons r t' ih =>
      intro b
      by_cases hc : verGE b.objectVersion r.objectVersion = true
      · have hstep : (r :: t').foldl pickLatest (some b) = t'.foldl pickLatest (some b) := by
          simp [List.foldl_cons, pickLatest, hc]
        obtain ⟨e, he, hm, hgb, hall⟩ := ih b
        refine ⟨e, by rw [hstep]; exact he, ?_, hgb, ?_⟩
        · rcases hm with h1 | h1
          · exact Or.inl h1
          · exact Or.inr (List.mem_cons_of_mem _ h1)
        · intro r' hr'
          rcases List.mem_cons.mp hr' with h1 | h1
          · rw [h1]; exact verGE_trans _ _ _ hgb hc
          · exact hall r' h1
      · have hrb : verGE r.objectVersion b.objectVersion = true := verGE_total _ _ hc
        have hstep : (r :: t').foldl pickLatest (some b) = t'.foldl pickLatest (some r) := by
          simp [List.foldl_cons, pickLatest, hc]
        obtain ⟨e, he, hm, hgr, hall⟩ := ih r
        refine ⟨e, by rw [hstep]; exact he, ?_, verGE_trans _ _ _ hgr hrb, ?_⟩
        · rcases hm with h1 | h1
          · exact Or.inr (by rw [h1]; exact List.mem_cons_self _ _)
          · exact Or.inr (List.mem_cons_of_mem _ h1)
        · intro r' hr'
          rcases List.mem_cons.mp hr' with h1 | h1
          · rw [h1]; exact hgr
          · exact hall r' h1

theorem pickLatest_fold_none (l : List ChangeRow) :
    l.foldl pickLatest Option.none = Option.none ↔ l = [] := by
  cases l with
  | nil => simp
  | cons r t =>
      simp only [List.foldl_cons, pickLatest]
      obtain ⟨e, he, _⟩ := pickLatest_fold_some t r
      rw [he]
      simp

/-! Keys reaching the buffer and the extracted diff. -/

theorem applyWrites_keys_tracked (tracked : List String) :
    ∀ (ws : List (String × Val)) (st : Buffer × Inst),
      (∀ p ∈ st.1, tracked.contains p.1 = true) →
      ∀ p ∈ (applyWrites tracked ws st).1, tracked.contains p.1 = true := by
  intro ws
  induction ws with
  | nil => intro st hst p hp; exact hst p hp
  | cons w rest ih =>
      intro st hst p hp
      have hstep : applyWrites tracked (w :: rest) st
          = applyWrites tracked rest (setattr_ tracked st.1 st.2 w.1 w.2) := rfl
      rw [hstep] at hp
      refine ih (setattr_ tracked st.1 st.2 w.1 w.2) ?_ p hp
      intro q hq
      simp only [setattr_] at hq
      by_cases hw : tracked.contains w.1
      · simp only [hw, if_true] at hq
        rcases mem_dinsert st.1 w.1 _ q hq with h1 | h1
        · exact hst q h1
        · rw [h1]
          exact hw
      · simp only [hw, if_false] at hq
        exact hst q hq

theorem goc_keys (cls : ClassMeta) (buf : Buffer) (reset : Bool) (e : String)
    (hbuf : ∀ p ∈ buf, (alook cls.columnAttrs p.1).getD p.1 ≠ e) :
    alook (get_object_changes cls buf reset).1 e = Option.none := by
  apply alook_none_of_keys
  intro q hq
  unfold get_object_changes at hq
  by_cases hb : buf.isEmpty
  · simp [hb] at hq
  · simp only [hb, if_false] at hq
    exact goc_fold_inv cls (fun q => q.1 ≠ e) buf []
      (by intro r hr; simp at hr) (fun p hp _ => hbuf p hp) q hq

/-- C1: for a child type with a configured parent, when the parent
class has a relationship `pa` targeting the child class, the child
class has a relationship `ca` back to the parent class whose value on
the instance is the parent entity, the instance is attached and the
extracted diff is non-empty, `record_changes` stages exactly one entry
whose subject is the parent instance reached through `ca`, with payload
`{type: Modified, changes: {pa: [{type: change_type, changes: diff,
id: {previous: self.id, current: self.id}}]}}`, and leaves the buffer
cleared. -/
theorem record_changes_parent_redirect (cls p : ClassMeta) (s : Inst) (buf : Buffer)
    (u : Actor) (ct : CType) (pa ca pt : String) (pid : Val)
    (hatt : s.attached = true)
    (hne : (get_object_changes cls buf true).1 ≠ [])
    (hfwd : get_relation_attr p cls.name = some pa)
    (hrev : get_relation_attr cls p.name = some ca)
    (hrel : alook s.attrs ca = some (Val.ref pt pid)) :
    record_changes cls (some p) s buf u ct =
      Except.ok (some (mkChange pt pid s u (Payload.nested CType.modified (some pa)
        ⟨ct, (get_object_changes cls buf true).1, getattr_ s "id", getattr_ s "id"⟩)), []) := by
  have hres : (get_object_changes cls buf true).2 = [] := goc_reset cls buf
  have hie : (get_object_changes cls buf true).1.isEmpty = false := by
    cases hgoc : (get_object_changes cls buf true).1 with
    | nil => exact absurd hgoc hne
    | cons a l => rfl
  simp [record_changes, hatt, hie, hfwd, hrev, hrel, hres]

/-- C1 witness: the spec's Order/LineItem example — LineItem id 7,
no version, `qty` changed 1 to 3, staged against the Order instance. -/
theorem record_changes_parent_redirect_witness :
    lineItem7.attached = true ∧
    (get_object_changes lineItemCls qtyBuf true).1 ≠ [] ∧
    get_relation_attr orderCls lineItemCls.name = some "items" ∧
    get_relation_attr lineItemCls orderCls.name = some "order" ∧
    alook lineItem7.attrs "order" = some (Val.ref "orders" (Val.int 2)) ∧
    record_changes lineItemCls (some orderCls) lineItem7 qtyBuf alice CType.modified =
      Except.ok (some (mkChange "orders" (Val.int 2) lineItem7 alice
        (Payload.nested CType.modified (some "items")
          ⟨CType.modified, (get_object_changes lineItemCls qtyBuf true).1,
           getattr_ lineItem7 "id", getattr_ lineItem7 "id"⟩)), []) :=
  ⟨by decide, by decide, by decide, by decide, by decide,
   record_changes_parent_redirect lineItemCls orderCls lineItem7 qtyBuf alice CType.modified
     "items" "order" "orders" (Val.int 2) (by decide) (by decide) (by decide) (by decide)
     (by decide)⟩

/-- C2 counterexample: the pending buffer is NOT owned exclusively by
each instance.  A tracked write on the detached instance with id 7 is
buffered in the class-level dict, and `record_changes` on the distinct
attached instance with id 9 of the same wrapped class consumes it: it
stages an entry whose subject is instance 9 but whose change set is the
write performed on instance 7 (previous value "a" belongs to instance
7), clearing the shared buffer. -/
theorem pending_diff_not_per_instance_cex :
    record_changes queryCls Option.none instB
        ((setattr_ (trackedSet ["name"]) [] instA "name" (Val.str "new")).1)
        alice CType.modified
      = Except.ok (some
          { id := Val.none, objectType := "queries", objectId := Val.int 9,
            objectVersion := Val.none, user := alice,
            change := Payload.flat CType.modified [("name", ⟨Val.str "a", Val.str "new"⟩)],
            createdAt := Val.none, changeType := Val.none }, []) := by rfl

/-- C2 (amended): the pending buffer is class-level state shared by all
instances of one wrapped type — a tracked write on any instance `a` is
added to the single class buffer, and `record_changes` on any other
instance `b` of that class consumes and clears it, staging `a`'s change
set under `b`'s identity. -/
theorem record_changes_shared_buffer (cls : ClassMeta) (tracked : List String)
    (a b : Inst) (k : String) (v : Val) (u : Actor)
    (hk : tracked.contains k = true)
    (hatt : b.attached = true)
    (hne : v ≠ getattr_ a k) :
    record_changes cls Option.none b ((setattr_ tracked [] a k v).1) u CType.created
      = Except.ok (some (mkChange cls.tablename (getattr_ b "id") b u
          (Payload.flat CType.created
            [((alook cls.columnAttrs k).getD k, ⟨getattr_ a k, v⟩)])), []) := by
  have hmem : k ∈ tracked := by simpa using hk
  have hbuf : (setattr_ tracked [] a k v).1 = [(k, ⟨getattr_ a k, v⟩)] := by
    simp [setattr_, hmem, alook, dinsert]
  have hgoc : get_object_changes cls [(k, (⟨getattr_ a k, v⟩ : ChangeRec))] true
      = ([((alook cls.columnAttrs k).getD k, ⟨getattr_ a k, v⟩)], []) := by
    simp [get_object_changes, dinsert, hne]
  rw [hbuf]
  simp [record_changes, hatt, hgoc]

/-- C2 witness for the amended claim, at the two concrete instances of
the counterexample. -/
theorem record_changes_shared_buffer_witness :
    (trackedSet ["name"]).contains "name" = true ∧
    instB.attached = true ∧
    Val.str "new" ≠ getattr_ instA "name" ∧
    record_changes queryCls Option.none instB
        ((setattr_ (trackedSet ["name"]) [] instA "name" (Val.str "new")).1) alice CType.created
      = Except.ok (some (mkChange queryCls.tablename (getattr_ instB "id") instB alice
          (Payload.flat CType.created
            [((alook queryCls.columnAttrs "name").getD "name",
              ⟨getattr_ instA "name", Val.str "new"⟩)])), []) :=
  ⟨by decide, by decide, by decide,
   record_changes_shared_buffer queryCls (trackedSet ["name"]) instA instB "name"
     (Val.str "new") alice (by decide) (by decide) (by decide)⟩

/-- C3: at a child type with a configured parent but no relationship
back to the parent class, `record_changes` with a non-empty diff does
not fall back to the instance as subject: `get_relation_attr(cls,
parent)` returns `None` and `getattr(self, None, self)` raises
`TypeError`, since CPython rejects a non-string attribute name before
consulting the default. -/
theorem record_changes_missing_reverse_raises :
    record_changes lineItemNoRev (some orderCls) lineItem7 qtyBuf alice CType.modified
      = Except.error "TypeError: attribute name must be string" := by rfl

/-- C4: with the instance attached and an empty extracted change set,
`record_changes` with type Modified stages nothing (for any parent
configuration), while with any other type (Created, Deleted) and no
parent it stages one entry whose payload carries the empty change
map. -/
theorem record_changes_empty_diff (cls : ClassMeta) (parent : Option ClassMeta)
    (s : Inst) (buf : Buffer) (u : Actor)
    (hatt : s.attached = true)
    (hd : (get_object_changes cls buf true).1 = []) :
    record_changes cls parent s buf u CType.modified
        = Except.ok (Option.none, (get_object_changes cls buf true).2) ∧
    ∀ ct, ct ≠ CType.modified →
      record_changes cls Option.none s buf u ct
        = Except.ok (some (mkChange cls.tablename (getattr_ s "id") s u
            (Payload.flat ct [])), (get_object_changes cls buf true).2) := by
  constructor
  · simp [record_changes, hatt, hd]
  · intro ct hct
    have hbe : (ct == CType.modified) = false := by
      cases ct <;> simp_all
    simp [record_changes, hatt, hd, hbe]

/-- C4 witness: on an attached instance with an empty buffer, a
Modified record stages nothing and a Created record stages an entry
with empty changes. -/
theorem record_changes_empty_diff_witness :
    instB.attached = true ∧
    (get_object_changes queryCls [] true).1 = [] ∧
    record_changes queryCls Option.none instB [] alice CType.modified
      = Except.ok (Option.none, (get_object_changes queryCls [] true).2) ∧
    record_changes queryCls Option.none instB [] alice CType.created
      = Except.ok (some (mkChange queryCls.tablename (getattr_ instB "id") instB alice
          (Payload.flat CType.created [])), (get_object_changes queryCls [] true).2) :=
  ⟨by decide, by decide,
   (record_changes_empty_diff queryCls Option.none instB [] alice (by decide) (by decide)).1,
   (record_changes_empty_diff queryCls Option.none instB [] alice (by decide) (by decide)).2
     CType.created (by decide)⟩

/-- C5: for writes `v0, vs...` to one tracked attribute starting from a
buffer with no record for that attribute (the state right after a
flush), the buffered record ends with `previous` equal to the value
held before the first write and `current` equal to the last value
written; intermediate values survive in neither field, and every write
is applied to the underlying attribute unconditionally. -/
theorem write_sequence_collapse (tracked : List String) (key : String) (v0 : Val)
    (vs : List Val) (buf : Buffer) (s : Inst)
    (h1 : tracked.contains key = true)
    (h2 : alook buf key = Option.none) :
    alook (writeSeq tracked key (v0 :: vs) (buf, s)).1 key
        = some ⟨getattr_ s key, vs.getLastD v0⟩ ∧
    getattr_ (writeSeq tracked key (v0 :: vs) (buf, s)).2 key = vs.getLastD v0 ∧
    ∀ (b : Buffer) (i : Inst) (k : String) (v : Val),
      getattr_ (setattr_ tracked b i k v).2 k = v := by
  have hmem : key ∈ tracked := by simpa using h1
  have hstep : writeSeq tracked key (v0 :: vs) (buf, s)
      = writeSeq tracked key vs (setattr_ tracked buf s key v0) := rfl
  have hset : setattr_ tracked buf s key v0
      = (dinsert buf key ⟨getattr_ s key, v0⟩, ⟨dinsert s.attrs key v0, s.attached⟩) := by
    simp [setattr_, hmem, h2]
  have hlook := alook_dinsert_self buf key (⟨getattr_ s key, v0⟩ : ChangeRec)
  have hrec := writeSeq_keeps_previous tracked key h1 vs
    (dinsert buf key ⟨getattr_ s key, v0⟩) ⟨dinsert s.attrs key v0, s.attached⟩
    (getattr_ s key) v0 hlook
  have hattr : getattr_ (⟨dinsert s.attrs key v0, s.attached⟩ : Inst) key = v0 := by
    simp [getattr_, alook_dinsert_self]
  refine ⟨?_, ?_, fun b i k v => setattr_applies_write tracked b i k v⟩
  · rw [hstep, hset]
    exact hrec.1
  · rw [hstep, hset]
    have h3 := hrec.2
    rw [hattr] at h3
    exact h3

/-- C5 witness: `qty` held 1, written to 2 then 5 — the buffered record
is `{previous: 1, current: 5}` and the attribute holds 5. -/
theorem write_sequence_collapse_witness :
    (trackedSet ["qty"]).contains "qty" = true ∧
    alook ([] : Buffer) "qty" = Option.none ∧
    alook (writeSeq (trackedSet ["qty"]) "qty" [Val.int 2, Val.int 5]
        ([], ⟨[("qty", Val.int 1)], true⟩)).1 "qty"
      = some ⟨getattr_ ⟨[("qty", Val.int 1)], true⟩ "qty", [Val.int 5].getLastD (Val.int 2)⟩ ∧
    getattr_ (writeSeq (trackedSet ["qty"]) "qty" [Val.int 2, Val.int 5]
        ([], ⟨[("qty", Val.int 1)], true⟩)).2 "qty" = [Val.int 5].getLastD (Val.int 2) :=
  ⟨by decide, by decide,
   (write_sequence_collapse (trackedSet ["qty"]) "qty" (Val.int 2) [Val.int 5] []
     ⟨[("qty", Val.int 1)], true⟩ (by decide) (by decide)).1,
   (write_sequence_collapse (trackedSet ["qty"]) "qty" (Val.int 2) [Val.int 5] []
     ⟨[("qty", Val.int 1)], true⟩ (by decide) (by decide)).2.1⟩

/-- C6: diff extraction drops every buffered attribute whose current
value equals its previous value (every surviving entry differs, and an
all-equal buffer yields the empty map); with reset enabled the buffer
is left empty, so a second extraction with no intervening write returns
the empty map. -/
theorem extract_changes_drops_and_resets (cls : ClassMeta) (buf : Buffer) (reset : Bool) :
    (∀ q ∈ (get_object_changes cls buf reset).1, q.2.current ≠ q.2.previous) ∧
    ((∀ p ∈ buf, p.2.current = p.2.previous) → (get_object_changes cls buf reset).1 = []) ∧
    (get_object_changes cls buf true).2 = [] ∧
    (get_object_changes cls (get_object_changes cls buf true).2 reset).1 = [] := by
  refine ⟨goc_result_ne cls buf reset, goc_all_eq cls buf reset, goc_reset cls buf, ?_⟩
  rw [goc_reset cls buf]
  rfl

/-- C6 witness: a buffer whose one record was reverted to its original
value extracts to the empty map, the buffer is cleared, and a second
extraction is empty as well. -/
theorem extract_changes_drops_and_resets_witness :
    (∀ p ∈ eqBuf, p.2.current = p.2.previous) ∧
    (get_object_changes lineItemCls eqBuf true).1 = [] ∧
    (get_object_changes lineItemCls eqBuf true).2 = [] ∧
    (get_object_changes lineItemCls (get_object_changes lineItemCls eqBuf true).2 true).1
      = [] :=
  ⟨by decide,
   (extract_changes_drops_and_resets lineItemCls eqBuf true).2.1 (by decide),
   (extract_changes_drops_and_resets lineItemCls eqBuf true).2.2.1,
   (extract_changes_drops_and_resets lineItemCls eqBuf true).2.2.2⟩

/-- C7: on an instance not attached to a session, `record_changes` is a
silent no-op for every actor and change type: no exception, nothing
staged, and the pending buffer untouched (extraction is never
reached). -/
theorem record_changes_detached_noop (cls : ClassMeta) (parent : Option ClassMeta)
    (s : Inst) (buf : Buffer) (u : Actor) (ct : CType)
    (h : s.attached = false) :
    record_changes cls parent s buf u ct = Except.ok (Option.none, buf) := by
  simp [record_changes, h]

/-- C7 witness: a detached instance with a non-empty pending buffer,
recorded as Created, stages nothing and keeps the buffer. -/
theorem record_changes_detached_noop_witness :
    instA.attached = false ∧
    record_changes queryCls Option.none instA qtyBuf alice CType.created
      = Except.ok (Option.none, qtyBuf) :=
  ⟨by decide,
   record_changes_detached_noop queryCls Option.none instA qtyBuf alice CType.created
     (by decide)⟩

/-- C8 counterexample: the excluded name `id` CAN appear as a key of a
produced diff.  The caller lists `id` among the tracked attributes (it
is removed from the tracked set), only the tracked attribute `pk` is
written, but `pk` is mapped to storage column name `id`, so the
extracted diff is keyed by `id`. -/
theorem excluded_key_in_diff_cex :
    excludedAttrs.contains "id" = true ∧
    "id" ∈ ["pk", "id", "name"] ∧
    (get_object_changes pkCls
        (applyWrites (trackedSet ["pk", "id", "name"]) [("pk", Val.int 2)]
          ([], ⟨[("pk", Val.int 1), ("id", Val.int 7)], true⟩)).1 true).1
      = [("id", ⟨Val.int 1, Val.int 2⟩)] := by decide

/-- C8 (amended): the names id / created_at / updated_at / version are
removed from the tracked set regardless of caller input, so no write to
an attribute with one of these names is ever buffered and none of them
ever occurs as a buffer key; they are also absent from every produced
diff provided no tracked attribute of the class is mapped to an
excluded storage column name (without that proviso the counterexample
applies). -/
theorem excluded_names_never_buffered (cls : ClassMeta) (attributes : List String)
    (ws : List (String × Val)) (s : Inst) (e : String)
    (he : excludedAttrs.contains e = true) :
    alook (applyWrites (trackedSet attributes) ws ([], s)).1 e = Option.none ∧
    ((∀ q ∈ cls.columnAttrs, (trackedSet attributes).contains q.1 = true →
        excludedAttrs.contains q.2 = false) →
      alook (get_object_changes cls
        (applyWrites (trackedSet attributes) ws ([], s)).1 true).1 e = Option.none) := by
  have hte : (trackedSet attributes).contains e = false := by
    apply contains_filter_false
    have hmem : e ∈ excludedAttrs := by simpa using he
    simp [hmem]
  have hkeys : ∀ p ∈ (applyWrites (trackedSet attributes) ws ([], s)).1,
      (trackedSet attributes).contains p.1 = true :=
    applyWrites_keys_tracked (trackedSet attributes) ws ([], s) (by intro p hp; simp at hp)
  have hne : ∀ p ∈ (applyWrites (trackedSet attributes) ws ([], s)).1, p.1 ≠ e := by
    intro p hp hcontra
    have hp1 := hkeys p hp
    rw [hcontra, hte] at hp1
    exact Bool.false_ne_true hp1
  constructor
  · exact alook_none_of_keys _ e hne
  · intro hcols
    apply goc_keys
    intro p hp
    cases hq : alook cls.columnAttrs p.1 with
    | none => simpa [hq] using hne p hp
    | some c =>
        have hmemc := alook_mem cls.columnAttrs p.1 c hq
        have hc := hcols (p.1, c) hmemc (hkeys p hp)
        simp only [hq, Option.getD_some]
        intro hcontra
        rw [hcontra, he] at hc
        exact Bool.noConfusion hc

/-- C8 witness for the amended claim: on a realistic class whose
untracked `id` attribute is mapped to the excluded column name `id`
(and whose tracked `name` keeps column `name`), writes to `name` and to
the excluded `id` leave no buffered record named `id` and no diff key
`id`. -/
theorem excluded_names_never_buffered_witness :
    excludedAttrs.contains "id" = true ∧
    (∀ q ∈ fullCls.columnAttrs, (trackedSet ["name", "id"]).contains q.1 = true →
      excludedAttrs.contains q.2 = false) ∧
    alook (applyWrites (trackedSet ["name", "id"])
        [("name", Val.str "x"), ("id", Val.int 3)] ([], instA)).1 "id" = Option.none ∧
    alook (get_object_changes fullCls
        (applyWrites (trackedSet ["name", "id"])
          [("name", Val.str "x"), ("id", Val.int 3)] ([], instA)).1 true).1 "id"
      = Option.none :=
  ⟨by decide, by decide,
   (excluded_names_never_buffered fullCls ["name", "id"]
     [("name", Val.str "x"), ("id", Val.int 3)] instA "id" (by decide)).1,
   (excluded_names_never_buffered fullCls ["name", "id"]
     [("name", Val.str "x"), ("id", Val.int 3)] instA "id" (by decide)).2 (by decide)⟩

/-- C9: `to_dict(full)` always carries the entry's identity, subject
type and id, version, payload and timestamp; with `full` it embeds the
actor's full serialized dict (and no `user_id`), otherwise only the
actor identifier (and no `user`). -/
theorem to_dict_serialization (c : ChangeRow) (full : Bool) :
    alook (to_dict c full) "id" = some (DField.val c.id) ∧
    alook (to_dict c full) "object_type" = some (DField.val (Val.str c.objectType)) ∧
    alook (to_dict c full) "object_id" = some (DField.val c.objectId) ∧
    alook (to_dict c full) "object_version" = some (DField.val c.objectVersion) ∧
    alook (to_dict c full) "change" = some (DField.payload c.change) ∧
    alook (to_dict c full) "created_at" = some (DField.val c.createdAt) ∧
    alook (to_dict c full) "user"
      = (if full then some (DField.udict c.user.serialized) else Option.none) ∧
    alook (to_dict c full) "user_id"
      = (if full then Option.none else some (DField.val c.user.id)) := by
  cases full <;> exact ⟨rfl, rfl, rfl, rfl, rfl, rfl, rfl, rfl⟩

/-- C10: `last_change` returns nothing exactly when no ledger row
matches the subject's type and id, and otherwise returns a matching
row whose `object_version` is maximal (under the `DESC` order, NULL
first) among all rows for that subject. -/
theorem last_change_none_or_max (ledger : List ChangeRow) (cls : ClassMeta) (oid : Val) :
    (last_change ledger cls oid = Option.none →
      ∀ r ∈ ledger, matchesSubject r cls.tablename oid = false) ∧
    (∀ e, last_change ledger cls oid = some e →
      (e ∈ ledger ∧ matchesSubject e cls.tablename oid = true) ∧
      ∀ r ∈ ledger, matchesSubject r cls.tablename oid = true →
        verGE e.objectVersion r.objectVersion = true) := by
  constructor
  · intro hnone r hr
    have hfe : ledger.filter (fun row => matchesSubject row cls.tablename oid) = [] :=
      (pickLatest_fold_none _).mp hnone
    cases hmc : matchesSubject r cls.tablename oid with
    | false => rfl
    | true =>
        have hmem : r ∈ ledger.filter (fun row => matchesSubject row cls.tablename oid) :=
          List.mem_filter.mpr ⟨hr, hmc⟩
        rw [hfe] at hmem
        simp at hmem
  · intro e he
    unfold last_change at he
    cases hf : ledger.filter (fun row => matchesSubject row cls.tablename oid) with
    | nil =>
        rw [hf] at he
        simp at he
    | cons r0 t =>
        rw [hf, List.foldl_cons] at he
        have hpl : pickLatest Option.none r0 = some r0 := rfl
        rw [hpl] at he
        obtain ⟨e', he', hm', hgb', hall'⟩ := pickLatest_fold_some t r0
        rw [he'] at he
        have heq : e = e' := by
          injection he with h
          exact h.symm
        have hmemf : e' ∈ r0 :: t := by
          rcases hm' with h1 | h1
          · rw [h1]; exact List.mem_cons_self _ _
          · exact List.mem_cons_of_mem _ h1
        have hmemf2 : e' ∈ ledger.filter (fun row => matchesSubject row cls.tablename oid) := by
          rw [hf]; exact hmemf
        have hml := List.mem_filter.mp hmemf2
        refine ⟨⟨by rw [heq]; exact hml.1, by rw [heq]; exact hml.2⟩, ?_⟩
        intro r hr hmr
        have hrf : r ∈ ledger.filter (fun row => matchesSubject row cls.tablename oid) :=
          List.mem_filter.mpr ⟨hr, hmr⟩
        rw [hf] at hrf
        rw [heq]
        rcases List.mem_cons.mp hrf with h1 | h1
        · rw [h1]; exact hgb'
        · exact hall' r h1

/-- C10 witness: a ledger with versions 1 and 5 for queries/9 plus an
unrelated row — the result is the version-5 row, which matches the
subject and dominates the version-1 row. -/
theorem last_change_none_or_max_witness :
    last_change demoLedger queryCls (Val.int 9) = some rowV5 ∧
    rowV5 ∈ demoLedger ∧
    matchesSubject rowV5 queryCls.tablename (Val.int 9) = true ∧
    verGE rowV5.objectVersion rowV1.objectVersion = true :=
  ⟨by rfl,
   ((last_change_none_or_max demoLedger queryCls (Val.int 9)).2 rowV5 (by rfl)).1.1,
   ((last_change_none_or_max demoLedger queryCls (Val.int 9)).2 rowV5 (by rfl)).1.2,
   ((last_change_none_or_max demoLedger queryCls (Val.int 9)).2 rowV5 (by rfl)).2 rowV1
     (by decide) (by decide)⟩
